import Mathlib

/-!
Verification of the zeroclaw text-transformation core: a shallow embedding of
`src/channels/attachment.rs` and `src/providers/kiro.rs` over `List Char`
(Rust `&str` values are modelled as lists of Unicode scalar values; byte
lengths are recovered through `Char.utf8Size` where the source measures
bytes).  All definitions are executable and kernel-reducible so that claims
can be checked on concrete inputs.
-/

namespace ZeroClaw

/-- Convert a Lean string literal to the `List Char` representation used
throughout this development. -/
def str (s : String) : List Char := s.data

/-- The Unicode `White_Space` property, as used by Rust's `char::is_whitespace`
(and hence `str::trim` / `str::split_whitespace`). -/
def isRustWhitespace (c : Char) : Bool :=
  ('\x09' ≤ c && c ≤ '\x0d') || c = ' ' || c = '\u0085' || c = '\u00a0' ||
  c = '\u1680' || ('\u2000' ≤ c && c ≤ '\u200a') || c = '\u2028' ||
  c = '\u2029' || c = '\u202f' || c = '\u205f' || c = '\u3000'

/-- Rust `str::trim`: remove whitespace from both ends. -/
def rustTrim (s : List Char) : List Char :=
  ((s.dropWhile isRustWhitespace).reverse.dropWhile isRustWhitespace).reverse

/-- Rust `str::trim_matches` with a predicate: trim matching characters from
both ends. -/
def rustTrimMatches (p : Char → Bool) (s : List Char) : List Char :=
  ((s.dropWhile p).reverse.dropWhile p).reverse

/-- Rust `str::find(char)` presented as a split: `some (a, b)` when
`s = a ++ c :: b` and `c ∉ a` (i.e. the split at the first occurrence of `c`);
`none` when `c` does not occur. -/
def breakOn (c : Char) : List Char → Option (List Char × List Char)
  | [] => none
  | x :: xs =>
    if x = c then some ([], xs)
    else (breakOn c xs).map (fun p => (x :: p.1, p.2))

/-- Rust `str::find(&str)` presented as a split: `some (a, b)` when
`s = a ++ b`, `pat` is a prefix of `b` and the occurrence is the leftmost one;
`none` when `pat` does not occur in `s`.  (For ASCII patterns Rust's byte
indices always fall on character boundaries, so the character-level split
agrees with the byte-level one.) -/
def splitOnSub (pat : List Char) : List Char → Option (List Char × List Char)
  | [] => if pat.isPrefixOf ([] : List Char) then some ([], []) else none
  | x :: xs =>
    if pat.isPrefixOf (x :: xs) then some ([], x :: xs)
    else (splitOnSub pat xs).map (fun p => (x :: p.1, p.2))

/-- Rust `str::contains(&str)`. -/
def rustContains (s pat : List Char) : Bool := (splitOnSub pat s).isSome

/-- UTF-8 byte length of a string, i.e. Rust's `str::len`. -/
def utf8Len (s : List Char) : Nat := (s.map Char.utf8Size).sum

/-- `s.truncate (s.floor_char_boundary n)` in Rust: the longest prefix of
whole characters whose UTF-8 byte length is at most `n`. -/
def truncBytes (n : Nat) : List Char → List Char
  | [] => []
  | c :: cs => if c.utf8Size ≤ n then c :: truncBytes (n - c.utf8Size) cs else []

/-- Split on `'\n'` into the pieces between newlines (`#pieces = #newlines + 1`).
`acc` is the piece currently being accumulated. -/
def splitLinesGo : List Char → List Char → List (List Char)
  | [], acc => [acc]
  | c :: cs, acc =>
    if c = '\n' then acc :: splitLinesGo cs [] else splitLinesGo cs (acc ++ [c])

/-- Rust `str::lines`: split on `'\n'`, drop a final empty piece (a trailing
newline does not create an empty last line), and strip one trailing `'\r'`
from each line. -/
def rustLines (s : List Char) : List (List Char) :=
  let pieces := splitLinesGo s []
  let pieces := if pieces.getLast? = some [] then pieces.dropLast else pieces
  pieces.map (fun l => if l.getLast? = some '\r' then l.dropLast else l)

/-- Rust `str::split_whitespace`: maximal runs of non-whitespace characters.
`acc` is the word currently being accumulated. -/
def splitWsGo : List Char → List Char → List (List Char)
  | [], acc => if acc = [] then [] else [acc]
  | c :: cs, acc =>
    if isRustWhitespace c then
      if acc = [] then splitWsGo cs [] else acc :: splitWsGo cs []
    else splitWsGo cs (acc ++ [c])

def rustSplitWhitespace (s : List Char) : List (List Char) := splitWsGo s []

/-- `Vec::join(sep)`: concatenate with `sep` between consecutive elements. -/
def joinSep (sep : List Char) : List (List Char) → List Char
  | [] => []
  | [x] => x
  | x :: y :: xs => x ++ sep ++ joinSep sep (y :: xs)

/-- Worker for `rustReplace`.  The fuel only bounds the recursion depth for
the termination checker; every step consumes at least `pat.length ≥ 1`
characters, so `s.length + 1` units of fuel are never exhausted. -/
def rustReplaceGo : Nat → List Char → List Char → List Char → List Char
  | 0, s, _, _ => s
  | fuel + 1, s, pat, rep =>
    match splitOnSub pat s with
    | none => s
    | some (a, b) => a ++ rep ++ rustReplaceGo fuel (b.drop pat.length) pat rep

/-- Rust `str::replace`: replace every non-overlapping occurrence of `pat`,
left to right.  The repository only calls this with a non-empty pattern
(the pattern always starts with `'/'`), so the empty-pattern case is
irrelevant; we return `s` there. -/
def rustReplace (s pat rep : List Char) : List Char :=
  if pat = [] then s else rustReplaceGo (s.length + 1) s pat rep

/-! ## `src/channels/attachment.rs` -/

/-- The closed enumeration of attachment kinds. -/
inductive AttachmentKind where
  | image
  | document
  | video
  | audio
  | voice
deriving DecidableEq, Repr

/-- `AttachmentKind::from_marker`: trim, ASCII-uppercase, and look the name up
against the kind table (with the `PHOTO`/`FILE` synonyms). -/
def AttachmentKind.from_marker (m : List Char) : Option AttachmentKind :=
  let k := (rustTrim m).map Char.toUpper
  if k = str "IMAGE" ∨ k = str "PHOTO" then some .image
  else if k = str "DOCUMENT" ∨ k = str "FILE" then some .document
  else if k = str "VIDEO" then some .video
  else if k = str "AUDIO" then some .audio
  else if k = str "VOICE" then some .voice
  else none

/-- `AttachmentKind::marker_name`: the canonical uppercase marker name. -/
def AttachmentKind.marker_name : AttachmentKind → List Char
  | .image => str "IMAGE"
  | .document => str "DOCUMENT"
  | .video => str "VIDEO"
  | .audio => str "AUDIO"
  | .voice => str "VOICE"

structure Attachment where
  kind : AttachmentKind
  target : List Char
deriving DecidableEq, Repr

/-- The attempt to parse the contents of one bracketed span (the closure
passed to `split_once(':').and_then` in `parse_attachment_markers`):
split at the first `':'`, classify the kind, require a non-empty trimmed
target. -/
def parseMarker (m : List Char) : Option Attachment :=
  match breakOn ':' m with
  | none => none
  | some (k, t) =>
    match AttachmentKind.from_marker k with
    | none => none
    | some kind =>
      let tt := rustTrim t
      if tt = [] then none else some ⟨kind, tt⟩

/-- Character-level scanner equivalent to the cursor loop of
`parse_attachment_markers`.  `none` state: copying text while looking for
`'['`.  `some acc` state: inside a bracketed span opened by `'['`, with `acc`
the span contents read so far; the first `']'` closes the span (its contents
may contain further `'['`s, exactly as in the source, where the first `']'`
after the `'['` always closes the marker).  An unclosed `'['` makes the
remainder be copied verbatim. -/
def parseGo : List Char → Option (List Char) → List Char × List Attachment
  | [], none => ([], [])
  | [], some acc => ('[' :: acc, [])
  | c :: cs, none =>
    if c = '[' then parseGo cs (some [])
    else
      let r := parseGo cs none
      (c :: r.1, r.2)
  | c :: cs, some acc =>
    if c = ']' then
      match parseMarker acc with
      | some att =>
        let r := parseGo cs none
        (r.1, att :: r.2)
      | none =>
        let r := parseGo cs none
        ('[' :: acc ++ ']' :: r.1, r.2)
    else parseGo cs (some (acc ++ [c]))

/-- The scan of `parse_attachment_markers` before the final trim. -/
def parseCore (s : List Char) : List Char × List Attachment := parseGo s none

/-- `parse_attachment_markers`: returns `(cleaned_text, attachments)`, with
the cleaned text trimmed. -/
def parse_attachment_markers (s : List Char) : List Char × List Attachment :=
  let r := parseCore s
  (rustTrim r.1, r.2)

/-! ## Sanity checks mirroring the repository's unit tests -/

example :
    parse_attachment_markers (str "Check this [IMAGE:/tmp/a.png]")
      = (str "Check this", [⟨.image, str "/tmp/a.png"⟩]) := by decide

example :
    parse_attachment_markers
        (str "Report\n[IMAGE:https://example.com/a.png]\n[DOCUMENT:/tmp/report.pdf]")
      = (str "Report",
         [⟨.image, str "https://example.com/a.png"⟩,
          ⟨.document, str "/tmp/report.pdf"⟩]) := by decide

example :
    parse_attachment_markers (str "Hello [world] and [not:a:marker]")
      = (str "Hello [world] and [not:a:marker]", []) := by decide

/-! ## `src/providers/kiro.rs` -/

/-- The state of `strip_ansi_and_artifacts`'s control-sequence scanner.
The source's `while let` loop with `peek` is equivalent to this three-state
character machine: `normal` copies text; `afterEsc` has just consumed an
escape character (`0x1b`) and is looking at the next character; `inSeq` is
consuming an `ESC [` sequence up to and including its first ASCII alphabetic
terminator. -/
inductive ScanState where
  | normal
  | afterEsc
  | inSeq
deriving DecidableEq

/-- One step of the control-sequence scanner: next state plus emitted text.
Note that in state `afterEsc` the escape character itself has already been
dropped (the source only pushes characters in the non-escape branch); a
following `'['` enters `inSeq`, a following escape stays in `afterEsc`, and
anything else is emitted normally. -/
def stripStep : ScanState → Char → ScanState × List Char
  | .normal, c => if c = '\x1b' then (.afterEsc, []) else (.normal, [c])
  | .afterEsc, c =>
    if c = '[' then (.inSeq, [])
    else if c = '\x1b' then (.afterEsc, [])
    else (.normal, [c])
  | .inSeq, c => if c.isAlpha then (.normal, []) else (.inSeq, [])

def stripAnsiGo : ScanState → List Char → List Char
  | _, [] => []
  | st, c :: cs =>
    let r := stripStep st c
    r.2 ++ stripAnsiGo r.1 cs

/-- The first pass of `strip_ansi_and_artifacts` (the `while let` loop over
`chars.peekable()`): discard `ESC [ ... <alpha>` control sequences, and drop
an escape character not followed by `'['`. -/
def stripAnsiPass (s : List Char) : List Char := stripAnsiGo .normal s

/-- The per-line artifact cleanup: strip one `"> "` prefix if present, then a
trailing `"mm"` or, failing that, a trailing `'m'`. -/
def stripLineArtifacts (line : List Char) : List Char :=
  let l := if (str "> ").isPrefixOf line then line.drop 2 else line
  if (str "mm").isSuffixOf l then l.take (l.length - 2)
  else if l.getLast? = some 'm' then l.dropLast
  else l

/-- Worker for `convertMdCore`; fuel bounds the recursion depth only (each
step consumes at least the two characters of a `"!["`, so `s.length + 1`
units are never exhausted).  Mirrors the `while let Some(start) =
remaining.find("![")` loop of `convert_md_images`.  Since `remaining` always
starts with `"!["`, the first occurrence of `"]("` in it is at index ≥ 2, so
searching `remaining[2..]` (as done here to obtain the alt text directly) is
equivalent to the source's search over `remaining`. -/
def convertMdGo : Nat → List Char → List Char
  | 0, s => s
  | fuel + 1, s =>
    match splitOnSub (str "![") s with
    | none => s
    | some (pre, remaining) =>
      match splitOnSub (str "](") (remaining.drop 2) with
      | none => pre ++ str "![" ++ convertMdGo fuel (remaining.drop 2)
      | some (alt, afterParen) =>
        match breakOn ')' (afterParen.drop 2) with
        | none => pre ++ str "![" ++ convertMdGo fuel (remaining.drop 2)
        | some (url, rest) =>
          let path := if (str "file://").isPrefixOf url then url.drop 7 else url
          pre ++
            (if path.head? = some '/' then str "[IMAGE:" ++ path ++ str "]"
             else if alt ≠ [] then str "[IMAGE:" ++ url ++ str "]"
             else str "![" ++ alt ++ str "](" ++ url ++ str ")") ++
            convertMdGo fuel rest

/-- The markdown-image loop of `convert_md_images` (everything before the
final `detect_bare_image_paths` call). -/
def convertMdCore (s : List Char) : List Char := convertMdGo (s.length + 1) s

/-- The recognized image extensions of `detect_bare_image_paths`. -/
def imgExts : List (List Char) :=
  [str ".png", str ".jpg", str ".jpeg", str ".gif", str ".webp", str ".bmp"]

/-- The `trim_matches` predicate of `detect_bare_image_paths`: trim characters
that are not alphanumeric and not one of `/ . _ -`. -/
def bareTrimPred (c : Char) : Bool :=
  !(c.isAlphanum || c = '/' || c = '.' || c = '_' || c = '-')

/-- The body of `detect_bare_image_paths`'s inner loop, processing one word
against the current accumulated `result`. -/
def detectBareStep (result w : List Char) : List Char :=
  let clean := rustTrimMatches bareTrimPred w
  if clean.head? = some '/'
      && imgExts.any (fun ext => ext.isSuffixOf (clean.map Char.toLower))
      && !(rustContains result (str "[IMAGE:" ++ clean ++ str "]")) then
    rustReplace result clean (str "[IMAGE:" ++ clean ++ str "]")
  else result

/-- `detect_bare_image_paths`: scan the lines and whitespace-separated words
of `s`, and for each cleaned word that is an absolute path with a recognized
image extension and is not already wrapped in the accumulated result, replace
all its occurrences in the accumulated result by `[IMAGE:path]`. -/
def detect_bare_image_paths (s : List Char) : List Char :=
  (rustLines s).foldl
    (fun result line => (rustSplitWhitespace line).foldl detectBareStep result) s

/-- `convert_md_images`: the markdown-image loop followed by bare-path
detection on its result. -/
def convert_md_images (s : List Char) : List Char :=
  detect_bare_image_paths (convertMdCore s)

/-- `strip_ansi_and_artifacts`: control-sequence stripping, per-line artifact
cleanup rejoined with `'\n'`, overall trim, then markdown-image conversion. -/
def strip_ansi_and_artifacts (s : List Char) : List Char :=
  let result := stripAnsiPass s
  let cleaned := joinSep (str "\n") ((rustLines result).map stripLineArtifacts)
  convert_md_images (rustTrim cleaned)

/-- `ChatMessage` as consumed by `messages_to_prompt`. -/
structure ChatMessage where
  role : List Char
  content : List Char
deriving DecidableEq

def MAX_PROMPT_CHARS : Nat := 24000

def MAX_HISTORY_TURNS : Nat := 8

/-- The rendering loop of `messages_to_prompt`: a system message contributes
the tail of its content starting at the first occurrence of `"## Tool Use"`
(nothing if that anchor is absent), user/assistant messages are rendered with
a role label, and any other role is dropped. -/
def renderParts : List ChatMessage → List (List Char)
  | [] => []
  | m :: ms =>
    (if m.role = str "system" then
      match splitOnSub (str "## Tool Use") m.content with
      | some p => [p.2]
      | none => []
    else if m.role = str "user" then [str "User: " ++ m.content]
    else if m.role = str "assistant" then [str "Assistant: " ++ m.content]
    else []) ++ renderParts ms

/-- The history-compaction step of `messages_to_prompt`: when more than
`MAX_HISTORY_TURNS + 1` parts were rendered, keep the first part and the last
`MAX_HISTORY_TURNS` parts of the remainder. -/
def compactParts (parts : List (List Char)) : List (List Char)  :=
  if MAX_HISTORY_TURNS + 1 < parts.length then
    match parts with
    | [] => []
    | p :: rest => p :: rest.drop (rest.length - MAX_HISTORY_TURNS)
  else parts

/-- `messages_to_prompt`: render, compact, join with blank lines, and
truncate to the byte budget at a character boundary. -/
def messages_to_prompt (msgs : List ChatMessage) : List Char :=
  let parts := compactParts (renderParts msgs)
  let prompt := joinSep (str "\n\n") parts
  if MAX_PROMPT_CHARS < utf8Len prompt then truncBytes MAX_PROMPT_CHARS prompt
  else prompt

/-- The error outcomes of `invoke_kiro` (the two `anyhow::bail!` sites). -/
inductive KiroError where
  | nonZeroExit (msg : List Char)
  | backendOverflow (msg : List Char)
deriving DecidableEq

/-- The result-interpretation logic of `invoke_kiro`, as a function of the
subprocess outcome: exit status (`success`, with its display text
`statusStr`), captured stdout and captured stderr.  A non-zero exit yields a
`nonZeroExit` error embedding the stderr text; a successful exit has its
stdout sanitized and checked (case-insensitively) for the backend's
context-overflow message before being returned. -/
def invoke_kiro_result (success : Bool) (statusStr stdoutS stderrS : List Char) :
    Except KiroError (List Char) :=
  if !success then
    .error (.nonZeroExit
      (str "kiro-cli exited with status: " ++ statusStr ++ str " stderr: " ++ stderrS))
  else
    let text := strip_ansi_and_artifacts stdoutS
    if rustContains (text.map Char.toLower) (str "context window has overflowed") then
      .error (.backendOverflow (str "kiro-cli: context window has overflowed"))
    else .ok text

/-- The prompt built by `chat_with_system` for a single turn. -/
def chat_with_system_prompt (system : Option (List Char)) (message : List Char) :
    List Char :=
  (match system with
   | some sys => str "System: " ++ sys ++ str "\n\n"
   | none => []) ++ (str "User: " ++ message)

/-! ### Sanity checks for the kiro.rs model -/

example : stripAnsiPass (str "\x1b[31mred\x1b[0m") = str "red" := by decide

example :
    convert_md_images (str "![chart](file:///tmp/c.png)") = str "[IMAGE:/tmp/c.png]" := by
  decide

example :
    detect_bare_image_paths (str "see /tmp/a.png here")
      = str "see [IMAGE:/tmp/a.png] here" := by decide

/-! ## Claim C9: marker-name round trip -/

/-- C9: for every `AttachmentKind` value `k`,
`AttachmentKind::from_marker(k.marker_name())` returns `Some(k)`: each
canonical uppercase marker name round-trips through parsing back to the same
kind. -/
theorem c9_marker_roundtrip :
    ∀ k : AttachmentKind, AttachmentKind.from_marker k.marker_name = some k := by
  intro k
  cases k <;> rfl

/-! ## Claim C10: the single-turn prompt of `chat_with_system` -/

/-- C10: `chat_with_system` sends exactly
`"System: " ++ s ++ "\n\n" ++ "User: " ++ m` when a system string is present
and exactly `"User: " ++ m` otherwise; no truncation is applied on this path,
so the prompt length grows linearly (hence unboundedly) in the inputs. -/
theorem c10_single_turn_prompt :
    (∀ s m : List Char,
      chat_with_system_prompt (some s) m
        = str "System: " ++ s ++ str "\n\n" ++ (str "User: " ++ m)) ∧
    (∀ m : List Char, chat_with_system_prompt none m = str "User: " ++ m) ∧
    (∀ s m : List Char,
      (chat_with_system_prompt (some s) m).length = s.length + m.length + 16) ∧
    (∀ m : List Char, (chat_with_system_prompt none m).length = m.length + 6) := by
  refine ⟨fun s m => by simp [chat_with_system_prompt], fun m => rfl, fun s m => ?_, fun m => ?_⟩
  · have h1 : (str "System: ").length = 8 := rfl
    have h2 : (str "\n\n").length = 2 := rfl
    have h3 : (str "User: ").length = 6 := rfl
    simp [chat_with_system_prompt, h1, h2, h3]
    omega
  · have h3 : (str "User: ").length = 6 := rfl
    simp [chat_with_system_prompt, h3]
    omega

/-! ## Claim C3: the control-sequence stripping pass -/

/-- In states `normal` the scanner copies escape-free text verbatim. -/
theorem stripAnsiGo_copy (pre x : List Char) (h : '\x1b' ∉ pre) :
    stripAnsiGo .normal (pre ++ x) = pre ++ stripAnsiGo .normal x := by
  induction pre with
  | nil => rfl
  | cons c cs ih =>
    have hc : c ≠ '\x1b' := fun hc => h (hc ▸ List.mem_cons_self c cs)
    have hcs : '\x1b' ∉ cs := fun hm => h (List.mem_cons_of_mem c hm)
    simp [stripAnsiGo, stripStep, hc, ih hcs]

/-- In state `inSeq`, non-alphabetic characters are discarded and the first
alphabetic character ends the sequence. -/
theorem stripAnsiGo_consume (body : List Char) (t : Char) (rest : List Char)
    (hb : ∀ c ∈ body, c.isAlpha = false) (ht : t.isAlpha = true) :
    stripAnsiGo .inSeq (body ++ t :: rest) = stripAnsiGo .normal rest := by
  induction body with
  | nil => simp [stripAnsiGo, stripStep, ht]
  | cons c cs ih =>
    have hc : c.isAlpha = false := hb c (List.mem_cons_self c cs)
    have hcs : ∀ c ∈ cs, c.isAlpha = false := fun c hm => hb c (List.mem_cons_of_mem _ hm)
    simp [stripAnsiGo, stripStep, hc, ih hcs]

/-- C3 counterexample: the claim asserts that an escape character (0x1b) not
immediately followed by `'['` is copied to the output unchanged; the input
`"\x1bX"` contains no `ESC [` span, yet the escape character is dropped by
the first pass of `strip_ansi_and_artifacts`, so the output differs from the
input. -/
theorem c3_counterexample :
    stripAnsiPass ['\x1b', 'X'] = ['X'] ∧ stripAnsiPass ['\x1b', 'X'] ≠ ['\x1b', 'X'] := by
  constructor
  · rfl
  · decide

/-- C3 (amended): the control-sequence pass discards exactly the spans that
begin with `ESC [` up to and including the first subsequent ASCII alphabetic
character; every character outside such a span **other than a bare escape
character** is copied unchanged, and an escape character not immediately
followed by `'['` is itself discarded (the following character is processed
normally). -/
theorem c3_strip_behaviour :
    (∀ pre x : List Char, '\x1b' ∉ pre →
      stripAnsiPass (pre ++ x) = pre ++ stripAnsiPass x) ∧
    (∀ body : List Char, ∀ t : Char, ∀ rest : List Char,
      (∀ c ∈ body, c.isAlpha = false) → t.isAlpha = true →
      stripAnsiPass ('\x1b' :: '[' :: (body ++ t :: rest)) = stripAnsiPass rest) ∧
    (∀ c : Char, ∀ rest : List Char, c ≠ '[' →
      stripAnsiPass ('\x1b' :: c :: rest) = stripAnsiPass (c :: rest)) ∧
    stripAnsiPass ['\x1b'] = [] := by
  refine ⟨fun pre x h => stripAnsiGo_copy pre x h, fun body t rest hb ht => ?_,
    fun c rest hc => ?_, rfl⟩
  · show stripAnsiGo .normal _ = stripAnsiGo .normal rest
    simp [stripAnsiGo, stripStep, stripAnsiGo_consume body t rest hb ht]
  · by_cases hesc : c = '\x1b'
    · subst hesc
      simp [stripAnsiPass, stripAnsiGo, stripStep, hc]
    · simp [stripAnsiPass, stripAnsiGo, stripStep, hc, hesc]

/-- Witness for C3 (amended), instantiating each conjunct at concrete
inputs. -/
theorem c3_strip_behaviour_witness :
    stripAnsiPass (str "ab" ++ str "cd") = str "ab" ++ stripAnsiPass (str "cd") ∧
    stripAnsiPass ('\x1b' :: '[' :: (str "31" ++ 'm' :: str "ok")) = stripAnsiPass (str "ok") ∧
    stripAnsiPass ('\x1b' :: 'Q' :: str "z") = stripAnsiPass ('Q' :: str "z") :=
  ⟨c3_strip_behaviour.1 (str "ab") (str "cd") (by decide),
   c3_strip_behaviour.2.1 (str "31") 'm' (str "ok") (by decide) (by decide),
   c3_strip_behaviour.2.2.1 'Q' (str "z") (by decide)⟩

/-! ## Claim C6: idempotence of `detect_bare_image_paths` -/

/-- C6 (code bug): `detect_bare_image_paths` is **not** idempotent.  On
`"/a.png /b/a.png"` the first application rewrites substring occurrences of
`"/a.png"` inside the longer word `"/b/a.png"`, producing
`"[IMAGE:/a.png] /b[IMAGE:/a.png]"`; the second application then cleans the
word `"/b[IMAGE:/a.png]"` to the path-looking token `"/b[IMAGE:/a.png"` and
wraps it again, so applying the function twice differs from applying it
once. -/
theorem c6_detect_bare_not_idempotent :
    detect_bare_image_paths (str "/a.png /b/a.png")
        = str "[IMAGE:/a.png] /b[IMAGE:/a.png]" ∧
    detect_bare_image_paths (detect_bare_image_paths (str "/a.png /b/a.png"))
        ≠ detect_bare_image_paths (str "/a.png /b/a.png") := by
  constructor
  · decide
  · decide

/-! ## Claim C8: exit-status and overflow interpretation of `invoke_kiro` -/

/-- C8: a non-zero exit yields a `NonZeroExit` error whose message embeds the
captured stderr text; an exit status 0 whose sanitized output contains
"context window has overflowed" (case-insensitively) yields a
`BackendOverflow` error; only a status-0 output without that substring is
returned (sanitized) as success. -/
theorem c8_invoke_errors (success : Bool) (statusStr stdoutS stderrS : List Char) :
    (success = false →
      invoke_kiro_result success statusStr stdoutS stderrS
          = .error (.nonZeroExit (str "kiro-cli exited with status: " ++ statusStr
              ++ str " stderr: " ++ stderrS)) ∧
      stderrS <:+ (str "kiro-cli exited with status: " ++ statusStr
              ++ str " stderr: " ++ stderrS)) ∧
    (success = true →
      rustContains ((strip_ansi_and_artifacts stdoutS).map Char.toLower)
          (str "context window has overflowed") = true →
      invoke_kiro_result success statusStr stdoutS stderrS
          = .error (.backendOverflow (str "kiro-cli: context window has overflowed"))) ∧
    (success = true →
      rustContains ((strip_ansi_and_artifacts stdoutS).map Char.toLower)
          (str "context window has overflowed") = false →
      invoke_kiro_result success statusStr stdoutS stderrS
          = .ok (strip_ansi_and_artifacts stdoutS)) := by
  refine ⟨fun hf => ?_, fun ht hov => ?_, fun ht hov => ?_⟩
  · subst hf
    refine ⟨rfl, ?_⟩
    rw [List.append_assoc, List.append_assoc]
    exact List.suffix_append _ _ |>.trans (List.suffix_append _ _) |>.trans
      (List.suffix_append _ _)
  · subst ht
    simp [invoke_kiro_result, hov]
  · subst ht
    simp [invoke_kiro_result, hov]

/-- Witness for C8: the three branches at concrete subprocess outcomes. -/
theorem c8_invoke_errors_witness :
    invoke_kiro_result false (str "1") [] (str "boom")
        = .error (.nonZeroExit (str "kiro-cli exited with status: 1 stderr: boom")) ∧
    invoke_kiro_result true [] (str "Context Window has Overflowed") []
        = .error (.backendOverflow (str "kiro-cli: context window has overflowed")) ∧
    invoke_kiro_result true [] (str "hi") [] = .ok (str "hi") := by
  refine ⟨?_, ?_, ?_⟩
  · have h := ((c8_invoke_errors false (str "1") [] (str "boom")).1 rfl).1
    rw [h]
    have e : str "kiro-cli exited with status: " ++ str "1" ++ str " stderr: " ++ str "boom"
        = str "kiro-cli exited with status: 1 stderr: boom" := by decide
    rw [e]
  · exact (c8_invoke_errors true [] (str "Context Window has Overflowed") []).2.1 rfl
      (by decide)
  · have h := (c8_invoke_errors true [] (str "hi") []).2.2 rfl (by decide)
    rw [h]
    have e : strip_ansi_and_artifacts (str "hi") = str "hi" := by decide
    rw [e]

/-! ## Claims C1 and C2: the attachment-marker grammar -/

/-- Splitting at the first occurrence of a character that is not in the
prefix. -/
theorem breakOn_append (c : Char) (a b : List Char) (h : c ∉ a) :
    breakOn c (a ++ c :: b) = some (a, b) := by
  induction a with
  | nil => simp [breakOn]
  | cons x xs ih =>
    have hx : x ≠ c := fun hx => h (hx ▸ List.mem_cons_self x xs)
    have hxs : c ∉ xs := fun hm => h (List.mem_cons_of_mem x hm)
    simp [breakOn, hx, ih hxs]

/-- The copying phase of the marker scanner passes bracket-free text
through verbatim. -/
theorem parseGo_copy (pre x : List Char) (h : '[' ∉ pre) :
    parseGo (pre ++ x) none = (pre ++ (parseGo x none).1, (parseGo x none).2) := by
  induction pre with
  | nil => simp
  | cons c cs ih =>
    have hc : c ≠ '[' := fun hc => h (hc ▸ List.mem_cons_self c cs)
    have hcs : '[' ∉ cs := fun hm => h (List.mem_cons_of_mem c hm)
    simp [parseGo, hc, ih hcs]

/-- Inside a bracketed span, the scanner accumulates everything up to the
first `']'` and then decides the span by `parseMarker`. -/
theorem parseGo_span (m rest acc : List Char) (h : ']' ∉ m) :
    parseGo (m ++ ']' :: rest) (some acc)
      = match parseMarker (acc ++ m) with
        | some att => ((parseGo rest none).1, att :: (parseGo rest none).2)
        | none => ('[' :: (acc ++ m) ++ ']' :: (parseGo rest none).1,
                   (parseGo rest none).2) := by
  induction m generalizing acc with
  | nil =>
    simp only [List.nil_append, List.append_nil]
    simp [parseGo]
  | cons c cs ih =>
    have hc : c ≠ ']' := fun hc => h (hc ▸ List.mem_cons_self c cs)
    have hcs : ']' ∉ cs := fun hm => h (List.mem_cons_of_mem c hm)
    have := ih (acc ++ [c]) hcs
    simp only [List.cons_append]
    simp [parseGo, hc, this, List.append_assoc]

/-- C1: a bracketed span `[KIND:target]` reached by the scanner (no `'['`
before it, no `']'` inside it) whose kind is recognized and whose target
trims to a non-empty string is omitted in its entirety from the cleaned text
and contributes exactly one attachment — with the canonical kind and the
trimmed target — in source position (before the attachments of the remaining
text). -/
theorem c1_marker_parsed (pre k t rest : List Char) (kind : AttachmentKind)
    (h1 : '[' ∉ pre) (h2 : AttachmentKind.from_marker k = some kind)
    (h3 : ':' ∉ k) (h4 : ']' ∉ k) (h5 : ']' ∉ t) (h6 : rustTrim t ≠ []) :
    parse_attachment_markers (pre ++ '[' :: (k ++ ':' :: t) ++ ']' :: rest)
      = (rustTrim (pre ++ (parseCore rest).1),
         ⟨kind, rustTrim t⟩ :: (parseCore rest).2) := by
  have hm : ']' ∉ k ++ ':' :: t := by
    simp only [List.mem_append, List.mem_cons]
    rintro (hk | hq | ht)
    · exact h4 hk
    · exact absurd hq (by decide)
    · exact h5 ht
  have hmark : parseMarker (k ++ ':' :: t) = some ⟨kind, rustTrim t⟩ := by
    unfold parseMarker
    rw [breakOn_append ':' k t h3]
    simp [h2, h6]
  unfold parse_attachment_markers parseCore
  rw [show pre ++ '[' :: (k ++ ':' :: t) ++ ']' :: rest
        = pre ++ ('[' :: ((k ++ ':' :: t) ++ ']' :: rest)) by simp]
  rw [parseGo_copy pre _ h1]
  have hb : parseGo ('[' :: ((k ++ ':' :: t) ++ ']' :: rest)) none
      = parseGo ((k ++ ':' :: t) ++ ']' :: rest) (some []) := by
    simp [parseGo]
  rw [hb, parseGo_span _ rest [] hm]
  simp [hmark]

/-- Witness for C1, at the repository's own test input
`"Check this [IMAGE:/tmp/a.png]"`. -/
theorem c1_marker_parsed_witness :
    parse_attachment_markers (str "Check this [IMAGE:/tmp/a.png]")
      = (str "Check this", [⟨.image, str "/tmp/a.png"⟩]) := by
  have h := c1_marker_parsed (str "Check this ") (str "IMAGE") (str "/tmp/a.png") []
    .image (by decide) (by decide) (by decide) (by decide) (by decide) (by decide)
  have e : str "Check this [IMAGE:/tmp/a.png]"
      = str "Check this " ++ '[' :: (str "IMAGE" ++ ':' :: str "/tmp/a.png") ++ ']' :: [] := by
    decide
  rw [e, h]
  decide

/-- C2: a bracketed span whose contents fail to parse (unrecognized kind,
missing colon, or empty trimmed target — exactly the cases in which
`parseMarker` returns `none`) is copied byte-for-byte, brackets included,
into the cleaned text and contributes no attachment; the function has no
error outcome at all. -/
theorem c2_malformed_preserved (pre m rest : List Char)
    (h1 : '[' ∉ pre) (h2 : ']' ∉ m) (h3 : parseMarker m = none) :
    parse_attachment_markers (pre ++ '[' :: m ++ ']' :: rest)
      = (rustTrim (pre ++ '[' :: m ++ ']' :: (parseCore rest).1),
         (parseCore rest).2) := by
  unfold parse_attachment_markers parseCore
  rw [show pre ++ '[' :: m ++ ']' :: rest = pre ++ ('[' :: (m ++ ']' :: rest)) by simp]
  rw [parseGo_copy pre _ h1]
  have hb : parseGo ('[' :: (m ++ ']' :: rest)) none
      = parseGo (m ++ ']' :: rest) (some []) := by
    simp [parseGo]
  rw [hb, parseGo_span m rest [] h2]
  simp [h3]

/-- Witness for C2, at the repository's own test input
`"Hello [world] and [not:a:marker]"` (first span lacks a colon; the second
has an unrecognized kind; both are preserved verbatim). -/
theorem c2_malformed_preserved_witness :
    parse_attachment_markers (str "Hello [world] and [not:a:marker]")
      = (str "Hello [world] and [not:a:marker]", []) := by
  have h := c2_malformed_preserved (str "Hello ") (str "world")
    (str " and [not:a:marker]") (by decide) (by decide) (by decide)
  have e : str "Hello [world] and [not:a:marker]"
      = str "Hello " ++ '[' :: str "world" ++ ']' :: str " and [not:a:marker]" := by
    decide
  rw [e, h]
  decide

/-! ## Claim C4: history compaction -/

/-- Ten user messages: rendering them produces ten parts and no system
contribution, which exercises the compaction path with a non-system first
part. -/
def msgs10c : List ChatMessage :=
  [⟨str "user", str "m0"⟩, ⟨str "user", str "m1"⟩, ⟨str "user", str "m2"⟩,
   ⟨str "user", str "m3"⟩, ⟨str "user", str "m4"⟩, ⟨str "user", str "m5"⟩,
   ⟨str "user", str "m6"⟩, ⟨str "user", str "m7"⟩, ⟨str "user", str "m8"⟩,
   ⟨str "user", str "m9"⟩]

/-- C4 counterexample: the claim bounds the retained rendered user/assistant
turns by `max_history_turns` (8) "in addition to the system contribution".
With ten user messages and no system message at all, compaction keeps the
first part plus the last eight — nine retained user turns and no system
contribution, exceeding the claimed bound of eight. -/
theorem c4_counterexample :
    msgs10c.all (fun m => m.role = str "user") = true ∧
    (renderParts msgs10c).length = 10 ∧
    (compactParts (renderParts msgs10c)).countP
        (fun p => (str "User: ").isPrefixOf p) = 9 := by
  refine ⟨by decide, by decide, by decide⟩

/-- C4 (amended): whenever the number of rendered parts exceeds
`max_history_turns + 1` (= 9), the compaction step keeps the first rendered
part (the system contribution whenever a system part was rendered first) and
exactly the last `max_history_turns` (8) parts of the remainder, in their
original order — so at most 8 rendered user/assistant turns survive **in
addition to the first part**, and they are always the most recent ones. -/
theorem c4_compaction (msgs : List ChatMessage)
    (h : MAX_HISTORY_TURNS + 1 < (renderParts msgs).length) :
    compactParts (renderParts msgs)
        = (renderParts msgs).take 1
          ++ ((renderParts msgs).drop 1).drop
              (((renderParts msgs).drop 1).length - MAX_HISTORY_TURNS) ∧
    (compactParts (renderParts msgs)).length = MAX_HISTORY_TURNS + 1 := by
  rcases hp : renderParts msgs with _ | ⟨p, rest⟩
  · rw [hp] at h
    simp at h
  · rw [hp] at h
    unfold compactParts
    rw [if_pos h]
    refine ⟨?_, ?_⟩
    · show p :: List.drop (rest.length - MAX_HISTORY_TURNS) rest = _
      simp
    · show (p :: List.drop (rest.length - MAX_HISTORY_TURNS) rest).length = _
      simp only [List.length_cons, List.length_drop]
      simp only [List.length_cons] at h
      omega

/-- Witness for C4 (amended) at the ten-user-message history. -/
theorem c4_compaction_witness :
    compactParts (renderParts msgs10c)
        = (renderParts msgs10c).take 1
          ++ ((renderParts msgs10c).drop 1).drop
              (((renderParts msgs10c).drop 1).length - MAX_HISTORY_TURNS) ∧
    (compactParts (renderParts msgs10c)).length = MAX_HISTORY_TURNS + 1 :=
  c4_compaction msgs10c (by decide)

/-! ## Claim C5: prompt truncation -/

theorem utf8Len_cons (c : Char) (l : List Char) :
    utf8Len (c :: l) = c.utf8Size + utf8Len l := by
  simp [utf8Len]

/-- The truncated prompt never exceeds the byte budget. -/
theorem truncBytes_len_le (s : List Char) : ∀ n, utf8Len (truncBytes n s) ≤ n := by
  induction s with
  | nil => intro n; simp [truncBytes, utf8Len]
  | cons c cs ih =>
    intro n
    unfold truncBytes
    by_cases h : c.utf8Size ≤ n
    · rw [if_pos h, utf8Len_cons]
      have := ih (n - c.utf8Size)
      omega
    · rw [if_neg h]
      simp [utf8Len]

/-- Truncation keeps a prefix of the string (whole characters only, so no
multi-byte character is ever split). -/
theorem truncBytes_isPre (s : List Char) : ∀ n, truncBytes n s <+: s := by
  induction s with
  | nil => intro n; simp [truncBytes]
  | cons c cs ih =>
    intro n
    unfold truncBytes
    by_cases h : c.utf8Size ≤ n
    · rw [if_pos h]
      exact List.cons_prefix_cons.mpr ⟨rfl, ih _⟩
    · rw [if_neg h]
      exact List.nil_prefix

/-- A prefix that fits within the byte budget survives truncation. -/
theorem prefix_truncBytes (l : List Char) :
    ∀ s n, l <+: s → utf8Len l ≤ n → l <+: truncBytes n s := by
  induction l with
  | nil => intro s n _ _; exact List.nil_prefix
  | cons c cs ih =>
    intro s n hp hlen
    rcases hp with ⟨t, ht⟩
    subst ht
    rw [utf8Len_cons] at hlen
    have hc : c.utf8Size ≤ n := by omega
    show (c :: cs) <+: truncBytes n (c :: (cs ++ t))
    unfold truncBytes
    rw [if_pos hc]
    refine List.cons_prefix_cons.mpr ⟨rfl, ?_⟩
    exact ih (cs ++ t) (n - c.utf8Size) (List.prefix_append _ _) (by omega)

/-- The first joined part is a prefix of the joined string. -/
theorem joinSep_head (sep p : List Char) (xs : List (List Char)) :
    p <+: joinSep sep (p :: xs) := by
  cases xs with
  | nil => exact List.prefix_refl _
  | cons y ys =>
    show p <+: p ++ sep ++ joinSep sep (y :: ys)
    rw [List.append_assoc]
    exact List.prefix_append _ _

/-- Compaction preserves the first rendered part. -/
theorem compactParts_head (p : List Char) (ps : List (List Char)) :
    ∃ X, compactParts (p :: ps) = p :: X := by
  unfold compactParts
  split
  · exact ⟨_, rfl⟩
  · exact ⟨ps, rfl⟩

/-- Eleven messages whose system message is **second**: its rendered
contribution is dropped by compaction. -/
def msgs11c : List ChatMessage :=
  [⟨str "user", str "a0"⟩, ⟨str "system", str "## Tool Use XX"⟩,
   ⟨str "user", str "a1"⟩, ⟨str "user", str "a2"⟩, ⟨str "user", str "a3"⟩,
   ⟨str "user", str "a4"⟩, ⟨str "user", str "a5"⟩, ⟨str "user", str "a6"⟩,
   ⟨str "user", str "a7"⟩, ⟨str "user", str "a8"⟩, ⟨str "user", str "a9"⟩]

/-- C5 counterexample: the claim says the system contribution, whenever
present, survives and appears in the final prompt.  In `msgs11c` a system
message with the `"## Tool Use"` anchor is present and renders a part, but
since it is not the first rendered part, compaction drops it: the built
prompt does not contain the system contribution at all. -/
theorem c5_counterexample :
    msgs11c.any (fun m => decide (m.role = str "system")) = true ∧
    (renderParts msgs11c).any (fun p => decide (p = str "## Tool Use XX")) = true ∧
    rustContains (messages_to_prompt msgs11c) (str "## Tool Use XX") = false := by
  refine ⟨by decide, by decide, by decide⟩

/-- C5 (amended): the built prompt's UTF-8 byte length never exceeds
`max_prompt_chars` (24000); the prompt is a whole-character prefix of the
joined (compacted) parts, so truncation cuts at a character boundary and
never splits a multi-byte character; and the **first rendered part** (the
system contribution whenever a system message renders first), provided its
own byte length fits the budget, survives truncation and appears as a prefix
of the final prompt. -/
theorem c5_prompt_bounds :
    (∀ msgs : List ChatMessage,
      utf8Len (messages_to_prompt msgs) ≤ MAX_PROMPT_CHARS) ∧
    (∀ msgs : List ChatMessage,
      messages_to_prompt msgs <+: joinSep (str "\n\n") (compactParts (renderParts msgs))) ∧
    (∀ msgs : List ChatMessage, ∀ p ps, renderParts msgs = p :: ps →
      utf8Len p ≤ MAX_PROMPT_CHARS → p <+: messages_to_prompt msgs) := by
  refine ⟨fun msgs => ?_, fun msgs => ?_, fun msgs p ps hp hlen => ?_⟩
  · show utf8Len (if _ < utf8Len (joinSep (str "\n\n") (compactParts (renderParts msgs)))
        then _ else _) ≤ _
    by_cases h : MAX_PROMPT_CHARS
        < utf8Len (joinSep (str "\n\n") (compactParts (renderParts msgs)))
    · rw [if_pos h]
      exact truncBytes_len_le _ _
    · rw [if_neg h]
      omega
  · show (if _ < utf8Len (joinSep (str "\n\n") (compactParts (renderParts msgs)))
        then _ else _) <+: _
    by_cases h : MAX_PROMPT_CHARS
        < utf8Len (joinSep (str "\n\n") (compactParts (renderParts msgs)))
    · rw [if_pos h]
      exact truncBytes_isPre _ _
    · rw [if_neg h]
  · obtain ⟨X, hX⟩ := compactParts_head p ps
    have hjoin : p <+: joinSep (str "\n\n") (compactParts (renderParts msgs)) := by
      rw [hp, hX]
      exact joinSep_head _ _ _
    show p <+: (if _ < utf8Len (joinSep (str "\n\n") (compactParts (renderParts msgs)))
        then _ else _)
    by_cases h : MAX_PROMPT_CHARS
        < utf8Len (joinSep (str "\n\n") (compactParts (renderParts msgs)))
    · rw [if_pos h]
      exact prefix_truncBytes p _ _ hjoin hlen
    · rw [if_neg h]
      exact hjoin

/-- A two-message history whose system message renders first. -/
def msgsW : List ChatMessage :=
  [⟨str "system", str "## Tool Use T"⟩, ⟨str "user", str "hi"⟩]

/-- Witness for C5 (amended): the system contribution of `msgsW` renders
first, fits the budget, and is a prefix of the built prompt. -/
theorem c5_prompt_bounds_witness :
    str "## Tool Use T" <+: messages_to_prompt msgsW :=
  c5_prompt_bounds.2.2 msgsW (str "## Tool Use T") [str "User: hi"]
    (by decide) (by decide)

/-! ## Claim C7: markdown-image conversion -/

/-- Structure of a successful `splitOnSub`: the input decomposes at the
occurrence. -/
theorem splitOnSub_some (pat : List Char) :
    ∀ s a b, splitOnSub pat s = some (a, b) → s = a ++ b ∧ pat.isPrefixOf b = true := by
  intro s
  induction s with
  | nil =>
    intro a b h
    unfold splitOnSub at h
    split at h
    · rw [Option.some.injEq, Prod.mk.injEq] at h
      rcases h with ⟨rfl, rfl⟩
      refine ⟨rfl, ?_⟩
      assumption
    · exact absurd h (by simp)
  | cons x xs ih =>
    intro a b h
    unfold splitOnSub at h
    split at h
    · rw [Option.some.injEq, Prod.mk.injEq] at h
      rcases h with ⟨rfl, rfl⟩
      refine ⟨rfl, ?_⟩
      assumption
    · rcases Option.map_eq_some'.mp h with ⟨⟨a', b'⟩, hrec, hf⟩
      rcases ih a' b' hrec with ⟨hsplit, hpre⟩
      cases hf
      exact ⟨by rw [hsplit]; rfl, hpre⟩

/-- Structure of a successful `breakOn`: the input decomposes at the
character. -/
theorem breakOn_some (c : Char) :
    ∀ s a b, breakOn c s = some (a, b) → s = a ++ c :: b := by
  intro s
  induction s with
  | nil => intro a b h; exact absurd h (by simp [breakOn])
  | cons x xs ih =>
    intro a b h
    unfold breakOn at h
    split at h
    · rw [Option.some.injEq, Prod.mk.injEq] at h
      rcases h with ⟨rfl, rfl⟩
      simp [*]
    · rcases Option.map_eq_some'.mp h with ⟨⟨a', b'⟩, hrec, hf⟩
      cases hf
      rw [ih a' b' hrec]
      rfl

/-- When `splitOnSub` fails, the pattern heads no suffix of the input. -/
theorem splitOnSub_none_suffix (pat : List Char) :
    ∀ s, splitOnSub pat s = none → ∀ t, t <:+ s → pat.isPrefixOf t = false := by
  intro s
  induction s with
  | nil =>
    intro h t ht
    rw [List.suffix_nil.mp ht]
    unfold splitOnSub at h
    split at h
    · exact absurd h (by simp)
    · rename_i hcond
      exact Bool.eq_false_iff.mpr hcond
  | cons x xs ih =>
    intro h t ht
    unfold splitOnSub at h
    split at h
    · exact absurd h (by simp)
    · have hx : pat.isPrefixOf (x :: xs) = false := by
        rename_i hcond
        exact Bool.eq_false_iff.mpr hcond
      have hxs : splitOnSub pat xs = none := by
        rcases hm : splitOnSub pat xs with _ | p
        · rfl
        · rw [hm] at h
          exact absurd h (by simp)
      rcases List.suffix_cons_iff.mp ht with rfl | ht'
      · exact hx
      · exact ih hxs t ht'

/-- A two-character pattern that occurs in no suffix of `pre` and whose
second character differs from the head of the appended text occurs in no
nonempty suffix of `pre` even after appending. -/
theorem twoChar_no_prefix (p₀ p₁ h₀ : Char) (b : List Char)
    (hne : p₁ = h₀ → False) (pre : List Char)
    (hnone : ∀ t, t <:+ pre → [p₀, p₁].isPrefixOf t = false) :
    ∀ t, t <:+ pre → t ≠ [] → [p₀, p₁].isPrefixOf (t ++ h₀ :: b) = false := by
  intro t ht htne
  match t with
  | [] => exact absurd rfl htne
  | [x] =>
    rw [Bool.eq_false_iff]
    intro htrue
    have hp := List.isPrefixOf_iff_prefix.mp htrue
    rcases List.cons_prefix_cons.mp hp with ⟨_, hp2⟩
    rcases List.cons_prefix_cons.mp hp2 with ⟨he2, _⟩
    exact hne he2
  | x :: y :: ys =>
    have h2 := hnone (x :: y :: ys) ht
    rw [Bool.eq_false_iff]
    intro htrue
    have hp := List.isPrefixOf_iff_prefix.mp htrue
    rcases List.cons_prefix_cons.mp hp with ⟨he0, hp2⟩
    rcases List.cons_prefix_cons.mp hp2 with ⟨he1, _⟩
    have : [p₀, p₁].isPrefixOf (x :: y :: ys) = true := by
      refine List.isPrefixOf_iff_prefix.mpr ?_
      exact List.cons_prefix_cons.mpr ⟨he0, List.cons_prefix_cons.mpr ⟨he1, List.nil_prefix⟩⟩
    rw [h2] at this
    exact absurd this (by simp)

/-- `splitOnSub` finds the boundary occurrence when the pattern occurs
nowhere earlier. -/
theorem splitOnSub_append_first (pat b : List Char) (hb : pat.isPrefixOf b = true) :
    ∀ pre : List Char,
      (∀ t, t <:+ pre → t ≠ [] → pat.isPrefixOf (t ++ b) = false) →
      splitOnSub pat (pre ++ b) = some (pre, b) := by
  intro pre
  induction pre with
  | nil =>
    intro _
    cases b with
    | nil => simp [splitOnSub, hb]
    | cons x xs => simp [splitOnSub, hb]
  | cons c cs ih =>
    intro h
    have hc : pat.isPrefixOf (c :: (cs ++ b)) = false := by
      have := h (c :: cs) (List.suffix_refl _) (by simp)
      simpa using this
    have hrec := ih (fun t ht htne => h t (ht.trans (List.suffix_cons c cs)) htne)
    show splitOnSub pat (c :: (cs ++ b)) = _
    unfold splitOnSub
    rw [hc]
    simp [hrec]

/-- A two-character marker placed after marker-free text is found exactly at
its position. -/
theorem splitOnSub_marker (p₀ p₁ : Char) (hne : p₁ = p₀ → False)
    (pre Z : List Char) (h1 : splitOnSub [p₀, p₁] pre = none) :
    splitOnSub [p₀, p₁] (pre ++ p₀ :: p₁ :: Z) = some (pre, p₀ :: p₁ :: Z) := by
  apply splitOnSub_append_first
  · simp [List.isPrefixOf]
  · exact twoChar_no_prefix p₀ p₁ p₀ (p₁ :: Z) hne pre
      (splitOnSub_none_suffix [p₀, p₁] pre h1)

/-- One unfolding of `convertMdGo` when all three searches succeed. -/
theorem convertMdGo_succ_eq (fuel : Nat) (s pre remaining alt afterP url rest' : List Char)
    (H1 : splitOnSub (str "![") s = some (pre, remaining))
    (H2 : splitOnSub (str "](") (remaining.drop 2) = some (alt, afterP))
    (H3 : breakOn ')' (afterP.drop 2) = some (url, rest')) :
    convertMdGo (fuel + 1) s
      = pre ++
        (if ((if (str "file://").isPrefixOf url then url.drop 7 else url).head?
              = some '/') then
          str "[IMAGE:" ++ (if (str "file://").isPrefixOf url then url.drop 7 else url)
            ++ str "]"
        else if alt ≠ [] then str "[IMAGE:" ++ url ++ str "]"
        else str "![" ++ alt ++ str "](" ++ url ++ str ")") ++
        convertMdGo fuel rest' := by
  simp only [convertMdGo, H1, H2, H3]

/-- Fuel-irrelevance of `convertMdGo` above the input length. -/
theorem convertMdGo_congr : ∀ a : Nat, ∀ s : List Char, ∀ b : Nat,
    s.length < a → s.length < b → convertMdGo a s = convertMdGo b s := by
  intro a
  induction a with
  | zero => intro s b ha _; exact absurd ha (Nat.not_lt_zero _)
  | succ a ih =>
    intro s b ha hb
    cases b with
    | zero => exact absurd hb (Nat.not_lt_zero _)
    | succ b' =>
      simp only [convertMdGo]
      cases h1 : splitOnSub (str "![") s with
      | none => simp only [h1]
      | some pr =>
        obtain ⟨pre, remaining⟩ := pr
        obtain ⟨hs, hpre⟩ := splitOnSub_some (str "![") s pre remaining h1
        have hrem2 : 2 ≤ remaining.length := by
          have hle := List.IsPrefix.length_le (List.isPrefixOf_iff_prefix.mp hpre)
          simpa using hle
        have hlen : s.length = pre.length + remaining.length := by
          rw [hs, List.length_append]
        have harg : (remaining.drop 2).length < a ∧ (remaining.drop 2).length < b' := by
          rw [List.length_drop]
          omega
        simp only [h1]
        cases h2 : splitOnSub (str "](") (remaining.drop 2) with
        | none =>
          simp only [h2]
          rw [ih (remaining.drop 2) b' harg.1 harg.2]
        | some pr2 =>
          obtain ⟨alt, afterP⟩ := pr2
          obtain ⟨hs2, hpre2⟩ := splitOnSub_some _ _ _ _ h2
          have haft2 : 2 ≤ afterP.length := by
            have hle := List.IsPrefix.length_le (List.isPrefixOf_iff_prefix.mp hpre2)
            simpa using hle
          have hlen2 : (remaining.drop 2).length = alt.length + afterP.length := by
            rw [hs2, List.length_append]
          simp only [h2]
          cases h3 : breakOn ')' (afterP.drop 2) with
          | none =>
            simp only [h3]
            rw [ih (remaining.drop 2) b' harg.1 harg.2]
          | some pr3 =>
            obtain ⟨url, rest'⟩ := pr3
            have hs3 := breakOn_some ')' (afterP.drop 2) url rest' h3
            have hlen3 : (afterP.drop 2).length = url.length + rest'.length + 1 := by
              rw [hs3, List.length_append, List.length_cons]
              omega
            have hr : rest'.length < a ∧ rest'.length < b' := by
              rw [List.length_drop] at hlen2 hlen3
              omega
            simp only [h3]
            rw [ih rest' b' hr.1 hr.2]

/-- C7: a markdown image span `![alt](url)` reached by the scanner (no
`"!["` before it, no `"]("` inside the alt text, no `')'` inside the url) is
rewritten as follows: the `file://` prefix is stripped from the url; if the
resulting path is absolute (starts with `'/'`) the span always becomes
`[IMAGE:path]`; otherwise it becomes `[IMAGE:url]` exactly when the alt text
is non-empty, and is preserved unchanged when the alt text is empty.  In
particular the sanitizer maps `![chart](file:///tmp/c.png)` to
`[IMAGE:/tmp/c.png]`. -/
theorem c7_md_image_spans :
    (∀ pre alt url rest : List Char,
      splitOnSub (str "![") pre = none →
      splitOnSub (str "](") alt = none →
      ')' ∉ url →
      convertMdCore (pre ++ str "![" ++ alt ++ str "](" ++ url ++ str ")" ++ rest)
        = pre ++
          (if ((if (str "file://").isPrefixOf url then url.drop 7 else url).head?
                = some '/') then
            str "[IMAGE:" ++ (if (str "file://").isPrefixOf url then url.drop 7 else url)
              ++ str "]"
          else if alt ≠ [] then str "[IMAGE:" ++ url ++ str "]"
          else str "![" ++ alt ++ str "](" ++ url ++ str ")") ++
          convertMdCore rest) ∧
    strip_ansi_and_artifacts (str "![chart](file:///tmp/c.png)")
      = str "[IMAGE:/tmp/c.png]" := by
  constructor
  · intro pre alt url rest h1 h2 h3
    have e1 : str "![" = ['!', '['] := rfl
    have e2 : str "](" = [']', '('] := rfl
    have e3 : str ")" = [')'] := rfl
    rw [e1] at h1
    rw [e2] at h2
    have hs : pre ++ str "![" ++ alt ++ str "](" ++ url ++ str ")" ++ rest
        = pre ++ '!' :: '[' :: (alt ++ ']' :: '(' :: (url ++ ')' :: rest)) := by
      rw [e1, e2, e3]
      simp [List.append_assoc]
    have H1 : splitOnSub (str "![")
        (pre ++ '!' :: '[' :: (alt ++ ']' :: '(' :: (url ++ ')' :: rest)))
        = some (pre, '!' :: '[' :: (alt ++ ']' :: '(' :: (url ++ ')' :: rest))) := by
      rw [e1]
      exact splitOnSub_marker '!' '[' (by decide) pre _ h1
    have H2 : splitOnSub (str "](") (alt ++ ']' :: '(' :: (url ++ ')' :: rest))
        = some (alt, ']' :: '(' :: (url ++ ')' :: rest)) := by
      rw [e2]
      exact splitOnSub_marker ']' '(' (by decide) alt _ h2
    have H3 : breakOn ')' (url ++ ')' :: rest) = some (url, rest) :=
      breakOn_append ')' url rest h3
    unfold convertMdCore
    rw [hs]
    rw [convertMdGo_succ_eq _ _ pre _ alt _ url rest H1 H2 H3]
    have hfuel : convertMdGo
        (pre ++ '!' :: '[' :: (alt ++ ']' :: '(' :: (url ++ ')' :: rest))).length rest
        = convertMdGo (rest.length + 1) rest := by
      apply convertMdGo_congr
      · simp [List.length_append]
        omega
      · omega
    rw [hfuel]
  · decide

/-- Witness for C7, instantiating the span theorem at the spec's example
`![chart](file:///tmp/c.png)` (with empty surrounding text). -/
theorem c7_md_image_spans_witness :
    convertMdCore (str "![chart](file:///tmp/c.png)") = str "[IMAGE:/tmp/c.png]" := by
  have h := c7_md_image_spans.1 [] (str "chart") (str "file:///tmp/c.png") []
    (by decide) (by decide) (by decide)
  have e : str "![chart](file:///tmp/c.png)"
      = [] ++ str "![" ++ str "chart" ++ str "](" ++ str "file:///tmp/c.png"
        ++ str ")" ++ [] := by decide
  rw [e, h]
  decide

end ZeroClaw
